import Mathlib

/-!
Verification of the pgdo repository's coordination/lifecycle core against its
natural-language specification.

The definitions below are a shallow embedding of the Rust source:

* `Version`, `parseVersion`, `displayVersion` embed
  `pgdo-lib/src/version/current.rs` (the `FromStr` and `Display` impls,
  including a faithful executable model of the regex
  `\b(\d+)[.](\d+)(?:[.](\d+))?\b` restricted to ASCII strings – `\d` and
  word characters are modelled as ASCII digits and ASCII `[A-Za-z0-9_]`,
  which agrees with the Rust semantics on all ASCII inputs).
* `clusterRunningCode`, `createOp`, `startOp`, `stopOp`, `destroyOp` embed
  `pgdo-lib/src/cluster.rs` (`Cluster::running/create/start/stop/destroy`),
  with the filesystem and the `pg_ctl` subprocesses abstracted into an
  oracle environment: each `.output()` call is represented by a `SpawnOut`
  record chosen by the environment (spawn success, collected exit code, and
  the world state left behind by the subprocess).
* `rStartup`, `rStartupIfExists`, `rShutdown`, `rDestroy` embed
  `pgdo-lib/src/cluster/resource.rs` (`startup`, `startup_if_exists`,
  `shutdown`, `destroy`); `cStartup`, `cStartupIfExists`, `cShutdown` and
  `retryRun` embed `pgdo-lib/src/coordinate.rs` (`startup`,
  `startup_if_exists`, `shutdown`, and the `retries::retry` combinator).
  File-lock calls (`pgdo-lib/src/lock.rs`, thin wrappers over `flock(2)`)
  are modelled by `flockTry`/`flockBlock` over the three lock states, with
  the OS response supplied by the environment; every execution of the Rust
  code corresponds to one choice of environment (and fuel, for the
  unbounded loops).
* `withFinallyT` embeds `pgdo-lib/src/coordinate/finally.rs`
  (`with_finally`), with computations represented as a trace of events plus
  an outcome (`ok`/`err`/`panicked`).
* `walArchive` embeds the `wal:archive` sub-operation of
  `pgdo-cli/src/command/backup.rs` (`BackupTools::invoke`).
* `backupDataName` and `doBaseBackupFinal` embed the backup-directory
  allocation in `pgdo-lib/src/cluster/backup.rs` (`Backup::do_base_backup`)
  and the equivalent block of `pgdo-cli/src/command/backup.rs`.
-/

/-- The `coordinate::State` enum: whether this process effected a transition. -/
inductive State where
  | Modified
  | Unmodified
deriving DecidableEq, Repr

/-- The `version::Version` enum from `version/current.rs`: `Pre10(major,
point, minor)` or `Post10(major, minor)`. The Rust `u32` components are
modelled as `Nat`; the parser enforces the `u32` range explicitly. Note that,
as in Rust, the constructors themselves are unchecked. -/
inductive Version where
  | Pre10 (major point minor : Nat)
  | Post10 (major minor : Nat)
deriving DecidableEq, Repr

/-- The `version::VersionError` enum (payload strings dropped). -/
inductive VersionError where
  | BadlyFormed
  | NotFound
deriving DecidableEq, Repr

/-- Decimal digit character, as produced by Rust's `u32` `Display`. -/
def digitChar : Nat → Char
  | 0 => '0' | 1 => '1' | 2 => '2' | 3 => '3' | 4 => '4'
  | 5 => '5' | 6 => '6' | 7 => '7' | 8 => '8' | _ => '9'

/-- Decimal digit string of a `Nat`, most significant digit first, with
explicit fuel so that the definition is structurally recursive (and hence
evaluates inside the kernel); `fuel > n` always suffices. -/
def natToDigitsAux : Nat → Nat → List Char
  | 0, _ => []
  | fuel + 1, n =>
    if n < 10 then [digitChar n]
    else natToDigitsAux fuel (n / 10) ++ [digitChar (n % 10)]

/-- Decimal digit string of a `Nat`, most significant digit first: the model
of Rust's `{}` formatting of an unsigned integer. -/
def natToDigits (n : Nat) : List Char :=
  natToDigitsAux (n + 1) n

/-- Numeric value of a list of decimal digit characters. -/
def digitsVal (l : List Char) : Nat :=
  l.foldl (fun acc c => acc * 10 + (c.toNat - 48)) 0

/-- Model of Rust `str::parse::<u32>` on a capture consisting solely of
decimal digits: succeeds exactly when the digit string is non-empty and its
value fits in 32 bits. -/
def parseU32 (l : List Char) : Option Nat :=
  if l = [] then none
  else if digitsVal l < 2 ^ 32 then some (digitsVal l) else none

/-- Word character of the regex crate (ASCII fragment): `[A-Za-z0-9_]`. -/
def isWordChar (c : Char) : Bool :=
  c.isAlphanum || c = '_'

/-- Maximal leading run of decimal digits (the greedy `\d+`). -/
def digitRun : List Char → List Char × List Char
  | [] => ([], [])
  | c :: cs =>
    if c.isDigit then
      let (d, r) := digitRun cs
      (c :: d, r)
    else ([], c :: cs)

/-- The trailing `\b` of the version regex: holds at the end of the string or
before a non-word character. -/
def boundaryAfter : List Char → Bool
  | [] => true
  | c :: _ => !isWordChar c

/-- One anchored attempt of the regex `\d+[.]\d+(?:[.]\d+)?\b` at the current
position (the leading `\b` is checked by the caller). Returns the three
captures. Greedy `\d+` runs cannot usefully backtrack here because any
shorter run would put the following position between two word characters. -/
def matchAt (cs : List Char) : Option (List Char × List Char × Option (List Char)) :=
  let (d1, r1) := digitRun cs
  if d1 = [] then none
  else
    match r1 with
    | '.' :: r2 =>
      let (d2, r3) := digitRun r2
      if d2 = [] then none
      else
        match r3 with
        | '.' :: r4 =>
          let (d3, r5) := digitRun r4
          if d3 ≠ [] && boundaryAfter r5 then some (d1, d2, some d3)
          else if boundaryAfter r3 then some (d1, d2, none) else none
        | _ => if boundaryAfter r3 then some (d1, d2, none) else none
    | _ => none

/-- Leftmost match of `\b\d+[.]\d+(?:[.]\d+)?\b`: scan positions left to
right; a match can only begin at a digit not preceded by a word character.
The `prevW` flag records whether the previous character is a word
character. -/
def findVersion : List Char → Bool → Option (List Char × List Char × Option (List Char))
  | [], _ => none
  | c :: cs, prevW =>
    if !prevW && c.isDigit then
      match matchAt (c :: cs) with
      | some r => some r
      | none => findVersion cs (isWordChar c)
    else findVersion cs (isWordChar c)

/-- The `FromStr` impl for `Version` (`version/current.rs` lines 52-79):
find the first regex match, parse the captures as `u32` (overflow is
`BadlyFormed`), and enforce the pre-10/post-10 shape. -/
def parseVersion (s : List Char) : Except VersionError Version :=
  match findVersion s false with
  | none => .error .NotFound
  | some (d1, d2, od3) =>
    match parseU32 d1 with
    | none => .error .BadlyFormed
    | some a =>
      match parseU32 d2 with
      | none => .error .BadlyFormed
      | some b =>
        match od3 with
        | none => if 10 ≤ a then .ok (.Post10 a b) else .error .BadlyFormed
        | some d3 =>
          if 10 ≤ a then .error .BadlyFormed
          else
            match parseU32 d3 with
            | some c => .ok (.Pre10 a b c)
            | none => .error .BadlyFormed

/-- The `Display` impl for `Version` (`version/current.rs` lines 43-50):
`a.b.c` for `Pre10`, `a.b` for `Post10`. -/
def displayVersion : Version → List Char
  | .Pre10 a b c => natToDigits a ++ '.' :: natToDigits b ++ '.' :: natToDigits c
  | .Post10 a b => natToDigits a ++ '.' :: natToDigits b

/-- A `Version` value respecting the documented invariants and the `u32`
component range. -/
def validVersion : Version → Prop
  | .Pre10 a b c => a < 10 ∧ b < 2 ^ 32 ∧ c < 2 ^ 32
  | .Post10 a b => 10 ≤ a ∧ a < 2 ^ 32 ∧ b < 2 ^ 32

/-- The Rust `Version::Pre10` enum constructor is total: it performs no
validation whatsoever (the `major < 10` requirement is a documented caller
contract only). Wrapped in `Option` so it can be compared with the
spec-side checking constructor below. -/
def mkPre10 (a b c : Nat) : Option Version :=
  some (.Pre10 a b c)

/-- Modelled from the spec: the spec claims the `Pre10` constructor rejects
`major ≥ 10`; this is that claimed checking constructor, written from the
spec's words for comparison with `mkPre10` (the constructor found in the
source). -/
def mkPre10Spec (a b c : Nat) : Option Version :=
  if 10 ≤ a then none else some (.Pre10 a b c)

theorem digitChar_isDigit (d : Nat) (h : d < 10) : (digitChar d).isDigit = true := by
  interval_cases d <;> decide

theorem digitChar_val (d : Nat) (h : d < 10) : (digitChar d).toNat - 48 = d := by
  interval_cases d <;> decide

theorem natToDigitsAux_ne_nil (fuel n : Nat) (h : n < fuel) :
    natToDigitsAux fuel n ≠ [] := by
  cases fuel with
  | zero => omega
  | succ m =>
    unfold natToDigitsAux
    split <;> simp

theorem natToDigits_ne_nil (n : Nat) : natToDigits n ≠ [] :=
  natToDigitsAux_ne_nil (n + 1) n (by omega)

theorem natToDigitsAux_digits (fuel : Nat) :
    ∀ n, n < fuel → ∀ c ∈ natToDigitsAux fuel n, c.isDigit = true := by
  induction fuel with
  | zero => intro n h; omega
  | succ m ih =>
    intro n h c hc
    unfold natToDigitsAux at hc
    by_cases h10 : n < 10
    · rw [if_pos h10] at hc
      simp at hc
      subst hc
      exact digitChar_isDigit n h10
    · rw [if_neg h10] at hc
      rcases List.mem_append.mp hc with h1 | h2
      · exact ih (n / 10) (by omega) c h1
      · simp at h2; subst h2; exact digitChar_isDigit _ (Nat.mod_lt _ (by omega))

theorem natToDigits_digits (n : Nat) : ∀ c ∈ natToDigits n, c.isDigit = true :=
  natToDigitsAux_digits (n + 1) n (by omega)

theorem digitsVal_natToDigitsAux (fuel : Nat) :
    ∀ n, n < fuel → digitsVal (natToDigitsAux fuel n) = n := by
  induction fuel with
  | zero => intro n h; omega
  | succ m ih =>
    intro n h
    unfold natToDigitsAux
    by_cases h10 : n < 10
    · rw [if_pos h10]
      simp [digitsVal, digitChar_val n h10]
    · rw [if_neg h10]
      have ihn := ih (n / 10) (by omega)
      unfold digitsVal at ihn ⊢
      rw [List.foldl_append]
      simp [ihn, digitChar_val _ (Nat.mod_lt _ (by omega))]
      omega

theorem digitsVal_natToDigits (n : Nat) : digitsVal (natToDigits n) = n :=
  digitsVal_natToDigitsAux (n + 1) n (by omega)

def headNotDigit : List Char → Prop
  | [] => True
  | c :: _ => c.isDigit = false

theorem digitRun_append (l rest : List Char) (hl : ∀ c ∈ l, c.isDigit = true)
    (hr : headNotDigit rest) : digitRun (l ++ rest) = (l, rest) := by
  induction l with
  | nil =>
    simp only [List.nil_append]
    cases rest with
    | nil => rfl
    | cons c cs =>
      have hc : c.isDigit = false := hr
      simp [digitRun, hc]
  | cons c cs ih =>
    have hc : c.isDigit = true := hl c (by simp)
    have ih2 := ih (fun x hx => hl x (by simp [hx]))
    simp only [List.cons_append, digitRun, hc, if_true, List.append_eq, ih2]

theorem isDigit_isWordChar {c : Char} (h : c.isDigit = true) : isWordChar c = true := by
  simp [isWordChar, Char.isAlphanum, h]


theorem digitRun_all (l : List Char) (hl : ∀ c ∈ l, c.isDigit = true) :
    digitRun l = (l, []) := by
  have := digitRun_append l [] hl trivial
  simpa using this

theorem matchAt_two (da db : List Char) (ha : ∀ c ∈ da, c.isDigit = true)
    (hb : ∀ c ∈ db, c.isDigit = true) (hna : da ≠ []) (hnb : db ≠ []) :
    matchAt (da ++ '.' :: db) = some (da, db, none) := by
  unfold matchAt
  rw [digitRun_append da ('.' :: db) ha (by simp [headNotDigit])]
  simp only [hna, if_neg]
  rw [digitRun_all db hb]
  simp [hna, hnb, boundaryAfter]

theorem matchAt_three (da db dc : List Char) (ha : ∀ c ∈ da, c.isDigit = true)
    (hb : ∀ c ∈ db, c.isDigit = true) (hc : ∀ c ∈ dc, c.isDigit = true)
    (hna : da ≠ []) (hnb : db ≠ []) (hnc : dc ≠ []) :
    matchAt (da ++ '.' :: (db ++ '.' :: dc)) = some (da, db, some dc) := by
  unfold matchAt
  rw [digitRun_append da ('.' :: (db ++ '.' :: dc)) ha (by simp [headNotDigit])]
  simp only
  rw [digitRun_append db ('.' :: dc) hb (by simp [headNotDigit])]
  simp only
  rw [digitRun_all dc hc]
  simp [hna, hnb, hnc, boundaryAfter]

theorem parseU32_natToDigits (n : Nat) (h : n < 2 ^ 32) :
    parseU32 (natToDigits n) = some n := by
  unfold parseU32
  rw [if_neg (natToDigits_ne_nil n), digitsVal_natToDigits n, if_pos (by omega : n < 2 ^ 32)]

theorem findVersion_head (c : Char) (cs : List Char) (hc : c.isDigit = true)
    (r : List Char × List Char × Option (List Char)) (hm : matchAt (c :: cs) = some r) :
    findVersion (c :: cs) false = some r := by
  simp [findVersion, hc, hm]

theorem findVersion_skip (p rest : List Char) (hp : ∀ ch ∈ p, isWordChar ch = false) :
    findVersion (p ++ rest) false = findVersion rest false := by
  induction p with
  | nil => simp
  | cons ch p ih =>
    have hw : isWordChar ch = false := hp ch (by simp)
    have hd : ch.isDigit = false := by
      by_contra hcon
      have := isDigit_isWordChar (c := ch) (by revert hcon; cases ch.isDigit <;> simp)
      simp [this] at hw
    simp only [List.cons_append, findVersion, hd, Bool.not_false, Bool.and_false, if_neg,
      Bool.false_eq_true, not_false_iff, hw]
    exact ih (fun x hx => hp x (by simp [hx]))

theorem displayVersion_pre10 (a b c : Nat) :
    displayVersion (.Pre10 a b c) = natToDigits a ++ '.' :: (natToDigits b ++ '.' :: natToDigits c) := by
  show (natToDigits a ++ '.' :: natToDigits b) ++ '.' :: natToDigits c = _
  simp

theorem parse_display_roundtrip (v : Version) (hv : validVersion v) :
    parseVersion (displayVersion v) = .ok v := by
  cases v with
  | Pre10 a b c =>
    obtain ⟨ha, hb, hc⟩ := hv
    have hm := matchAt_three (natToDigits a) (natToDigits b) (natToDigits c)
      (natToDigits_digits a) (natToDigits_digits b) (natToDigits_digits c)
      (natToDigits_ne_nil a) (natToDigits_ne_nil b) (natToDigits_ne_nil c)
    have hda : ∃ x xs, natToDigits a = x :: xs := by
      cases h : natToDigits a with
      | nil => exact absurd h (natToDigits_ne_nil a)
      | cons x xs => exact ⟨x, xs, rfl⟩
    obtain ⟨x, xs, hx⟩ := hda
    have hxd : x.isDigit = true := natToDigits_digits a x (by rw [hx]; simp)
    unfold parseVersion
    rw [displayVersion_pre10]
    rw [hx] at hm ⊢
    rw [List.cons_append] at hm ⊢
    rw [findVersion_head x _ hxd _ hm]
    rw [← hx] at *
    simp [parseU32_natToDigits a (by omega), parseU32_natToDigits b hb,
      parseU32_natToDigits c hc, Nat.not_le.mpr ha]
  | Post10 a b =>
    obtain ⟨ha, ha2, hb⟩ := hv
    have hm := matchAt_two (natToDigits a) (natToDigits b)
      (natToDigits_digits a) (natToDigits_digits b)
      (natToDigits_ne_nil a) (natToDigits_ne_nil b)
    have hda : ∃ x xs, natToDigits a = x :: xs := by
      cases h : natToDigits a with
      | nil => exact absurd h (natToDigits_ne_nil a)
      | cons x xs => exact ⟨x, xs, rfl⟩
    obtain ⟨x, xs, hx⟩ := hda
    have hxd : x.isDigit = true := natToDigits_digits a x (by rw [hx]; simp)
    unfold parseVersion
    show (match findVersion (natToDigits a ++ '.' :: natToDigits b) false with
      | none => Except.error VersionError.NotFound
      | some (d1, d2, od3) => _) = _
    rw [hx] at hm ⊢
    rw [List.cons_append] at hm ⊢
    rw [findVersion_head x _ hxd _ hm]
    rw [← hx] at *
    simp [parseU32_natToDigits a ha2, parseU32_natToDigits b hb, ha]

theorem parseU32_natToDigits_big (n : Nat) (h : 2 ^ 32 ≤ n) :
    parseU32 (natToDigits n) = none := by
  unfold parseU32
  rw [if_neg (natToDigits_ne_nil n), digitsVal_natToDigits n, if_neg (by omega)]

theorem parseVersion_append (p s : List Char) (hp : ∀ ch ∈ p, isWordChar ch = false) :
    parseVersion (p ++ s) = parseVersion s := by
  unfold parseVersion
  rw [findVersion_skip p s hp]

theorem findVersion_two (a b : Nat) :
    findVersion (natToDigits a ++ '.' :: natToDigits b) false
      = some (natToDigits a, natToDigits b, none) := by
  have hm := matchAt_two (natToDigits a) (natToDigits b)
    (natToDigits_digits a) (natToDigits_digits b)
    (natToDigits_ne_nil a) (natToDigits_ne_nil b)
  cases hx : natToDigits a with
  | nil => exact absurd hx (natToDigits_ne_nil a)
  | cons x xs =>
    have hxd : x.isDigit = true := natToDigits_digits a x (by rw [hx]; simp)
    rw [hx] at hm
    rw [List.cons_append] at hm
    rw [List.cons_append]
    exact findVersion_head x _ hxd _ hm

theorem findVersion_three (a b c : Nat) :
    findVersion (natToDigits a ++ '.' :: (natToDigits b ++ '.' :: natToDigits c)) false
      = some (natToDigits a, natToDigits b, some (natToDigits c)) := by
  have hm := matchAt_three (natToDigits a) (natToDigits b) (natToDigits c)
    (natToDigits_digits a) (natToDigits_digits b) (natToDigits_digits c)
    (natToDigits_ne_nil a) (natToDigits_ne_nil b) (natToDigits_ne_nil c)
  cases hx : natToDigits a with
  | nil => exact absurd hx (natToDigits_ne_nil a)
  | cons x xs =>
    have hxd : x.isDigit = true := natToDigits_digits a x (by rw [hx]; simp)
    rw [hx] at hm
    rw [List.cons_append] at hm
    rw [List.cons_append]
    exact findVersion_head x _ hxd _ hm

theorem parse_three_reject (a b c : Nat) (h10 : 10 ≤ a) :
    parseVersion (natToDigits a ++ '.' :: (natToDigits b ++ '.' :: natToDigits c))
      = .error .BadlyFormed := by
  unfold parseVersion
  rw [findVersion_three a b c]
  by_cases ha : a < 2 ^ 32
  · by_cases hb : b < 2 ^ 32
    · simp [parseU32_natToDigits a ha, parseU32_natToDigits b hb, h10]
    · simp [parseU32_natToDigits a ha, parseU32_natToDigits_big b (by omega)]
  · simp [parseU32_natToDigits_big a (by omega)]

theorem parse_two_reject_small (a b : Nat) (ha : a < 10) :
    parseVersion (natToDigits a ++ '.' :: natToDigits b) = .error .BadlyFormed := by
  unfold parseVersion
  rw [findVersion_two a b]
  by_cases hb : b < 2 ^ 32
  · simp [parseU32_natToDigits a (by omega : a < 2 ^ 32), parseU32_natToDigits b hb,
      Nat.not_le.mpr ha]
  · simp [parseU32_natToDigits a (by omega : a < 2 ^ 32), parseU32_natToDigits_big b (by omega)]

theorem parse_two_reject_overflow (a b : Nat) (ha : 2 ^ 32 ≤ a) :
    parseVersion (natToDigits a ++ '.' :: natToDigits b) = .error .BadlyFormed := by
  unfold parseVersion
  rw [findVersion_two a b]
  simp [parseU32_natToDigits_big a ha]

/-- C8 counterexample: contrary to the claim, the `Pre10` constructor in the
source performs no validation and accepts a major version of 10; the
spec-side checking constructor rejects it. -/
theorem C8_counterexample :
    mkPre10 10 0 0 = some (Version.Pre10 10 0 0) ∧ mkPre10Spec 10 0 0 = none :=
  ⟨rfl, rfl⟩

/-- C8 (amended): the parser accepts the first `d+.d+(.d+)?` match (also when
preceded by non-word characters, e.g. embedded in `pg_ctl (PostgreSQL)
14.2`); round-trips `display`ed valid versions; rejects three-component
matches with major ≥ 10 and two-component matches with major < 10 with
`BadlyFormed`; and numeric overflow of a component is `BadlyFormed`. The
`Pre10` constructor itself is unchecked. -/
theorem C8_version_parsing :
    (∀ v, validVersion v → parseVersion (displayVersion v) = .ok v)
    ∧ (∀ v p, validVersion v → (∀ ch ∈ p, isWordChar ch = false) →
        parseVersion (p ++ displayVersion v) = .ok v)
    ∧ parseVersion ("pg_ctl (PostgreSQL) 14.2".data) = .ok (.Post10 14 2)
    ∧ (∀ a b c, 10 ≤ a →
        parseVersion (natToDigits a ++ '.' :: (natToDigits b ++ '.' :: natToDigits c))
          = .error .BadlyFormed)
    ∧ (∀ a b, a < 10 →
        parseVersion (natToDigits a ++ '.' :: natToDigits b) = .error .BadlyFormed)
    ∧ (∀ a b, 2 ^ 32 ≤ a →
        parseVersion (natToDigits a ++ '.' :: natToDigits b) = .error .BadlyFormed) := by
  refine ⟨parse_display_roundtrip, ?_, ?_, parse_three_reject, parse_two_reject_small,
    parse_two_reject_overflow⟩
  · intro v p hv hp
    rw [parseVersion_append p _ hp]
    exact parse_display_roundtrip v hv
  · rfl

/-- C8 witness: the round-trip part of the theorem at the concrete version
9.6.17. -/
theorem C8_version_parsing_witness :
    parseVersion (displayVersion (.Pre10 9 6 17)) = .ok (.Pre10 9 6 17) :=
  C8_version_parsing.1 _ (by constructor <;> norm_num)

/-- The `cluster::ClusterError` variants reachable from the embedded
operations. Payloads are dropped, except the version carried by
`UnsupportedVersion`; the runtime-selection failures
(`RuntimeNotFound`/`RuntimeDefaultNotFound`, and a `PG_VERSION` parse
failure inside `Cluster::runtime`) are collapsed into `RuntimeNotFound`. -/
inductive ClusterError where
  | IoError
  | CommandError
  | UnsupportedVersion (v : Version)
  | RuntimeNotFound
deriving DecidableEq, Repr

/-- Observable filesystem state of a cluster: whether the data directory is
a directory, and whether `datadir/PG_VERSION` is a file. The source's
`cluster::exists` checks both. -/
structure CWorld where
  dirExists : Bool
  pgVersion : Bool
deriving DecidableEq, Repr

/-- The `cluster::exists` function (`cluster.rs` lines 505-508). -/
def clusterExists (w : CWorld) : Bool :=
  w.dirExists && w.pgVersion

/-- Outcome of one `.output()` call on a `pg_ctl` subprocess, chosen by the
environment: whether spawning and collecting the output succeeded, the exit
code (`none` means killed by a signal), and the world state the subprocess
leaves behind. -/
structure SpawnOut where
  ok : Bool
  code : Option Int
  world : CWorld
deriving DecidableEq, Repr

/-- Decode the exit code of `pg_ctl status` exactly as `Cluster::running`
does (`cluster.rs` lines 133-222). The nested Rust match on
`runtime.version` – with its ordered arm `Version::Pre10(9, point, _)`
before the catch-all `Version::Pre10(..)` – is rendered with an explicit
test on the major number. -/
def clusterRunningCode (ver : Version) (code : Option Int) (existsB : Bool) :
    Except ClusterError Bool :=
  match code with
  | none => .error .CommandError
  | some c =>
    if c = 0 then .ok true
    else
      let running : Option Bool :=
        match ver with
        | .Post10 _ _ =>
          if c = 3 then some false
          else if c = 4 then (if existsB then none else some false)
          else none
        | .Pre10 major point _ =>
          if major = 9 then
            if 4 ≤ point then
              if c = 3 then some false
              else if c = 4 then (if existsB then none else some false)
              else none
            else if 2 ≤ point then
              if c = 3 then some false else none
            else
              if c = 1 then some false else none
          else none
      match running with
      | some r => .ok r
      | none => .error (.UnsupportedVersion ver)

/-- Oracle environment for one `Cluster` method call: the (re-resolved)
runtime version (`none` models a runtime-selection failure in
`Cluster::runtime`), the outcomes of the four possible `pg_ctl`
invocations, and the outcomes of the two filesystem operations. -/
structure ClusterEnv where
  rt : Option Version
  statusOut : SpawnOut
  initOut : SpawnOut
  startOut : SpawnOut
  stopOut : SpawnOut
  mkdirOk : Bool
  removeOk : Bool
deriving DecidableEq, Repr

/-- The `Cluster::running` method (`cluster.rs` lines 131-223): resolve the
runtime, run `pg_ctl status`, decode its exit code. Reading the status is
modelled as leaving the world unchanged. -/
def runningOp (env : ClusterEnv) (w : CWorld) : Except ClusterError Bool :=
  match env.rt with
  | none => .error .RuntimeNotFound
  | some ver =>
    if env.statusOut.ok then clusterRunningCode ver env.statusOut.code (clusterExists w)
    else .error .IoError

/-- The `Cluster::create` method (`cluster.rs` lines 240-260): return
`Unmodified` if the cluster exists, else `create_dir_all`, run `pg_ctl
init`, and return `Modified` – without inspecting the subprocess's exit
status. -/
def createOp (env : ClusterEnv) (w : CWorld) : Except ClusterError (State × CWorld) :=
  if clusterExists w then .ok (.Unmodified, w)
  else if !env.mkdirOk then .error .IoError
  else
    match env.rt with
    | none => .error .RuntimeNotFound
    | some _ =>
      if env.initOut.ok then .ok (.Modified, env.initOut.world)
      else .error .IoError

/-- The `Cluster::start` method (`cluster.rs` lines 266-308): ensure
created, return `Unmodified` if already running (options not applied), else
run `pg_ctl start` and return `Modified` – without inspecting the
subprocess's exit status. -/
def startOp (env : ClusterEnv) (w : CWorld) : Except ClusterError (State × CWorld) :=
  match createOp env w with
  | .error e => .error e
  | .ok (_, w1) =>
    match runningOp env w1 with
    | .error e => .error e
    | .ok true => .ok (.Unmodified, w1)
    | .ok false =>
      match env.rt with
      | none => .error .RuntimeNotFound
      | some _ =>
        if env.startOut.ok then .ok (.Modified, env.startOut.world)
        else .error .IoError

/-- The `Cluster::stop` method (`cluster.rs` lines 464-480): return
`Unmodified` if not running, else run `pg_ctl stop -m fast` and return
`Modified` – without inspecting the subprocess's exit status. -/
def stopOp (env : ClusterEnv) (w : CWorld) : Except ClusterError (State × CWorld) :=
  match runningOp env w with
  | .error e => .error e
  | .ok false => .ok (.Unmodified, w)
  | .ok true =>
    match env.rt with
    | none => .error .RuntimeNotFound
    | some _ =>
      if env.stopOut.ok then .ok (.Modified, env.stopOut.world)
      else .error .IoError

/-- The `Cluster::destroy` method (`cluster.rs` lines 483-491): `stop()`,
then `remove_dir_all`; `Ok` maps to `Modified`, a `NotFound` error (the
directory is absent) maps to `Unmodified`, other errors propagate. -/
def destroyOp (env : ClusterEnv) (w : CWorld) : Except ClusterError (State × CWorld) :=
  match stopOp env w with
  | .error e => .error e
  | .ok (_, w1) =>
    if w1.dirExists then
      if env.removeOk then .ok (.Modified, ⟨false, false⟩)
      else .error .IoError
    else .ok (.Unmodified, w1)

/-- Modelled from the claim's words: the exit codes that mean "stopped" for
each runtime version family (10+, 9.4+, 9.2/9.3, 9.0/9.1; code 4 counts
only when `datadir/PG_VERSION` is absent). -/
def specStoppedB (ver : Version) (c : Int) (existsB : Bool) : Bool :=
  match ver with
  | .Post10 _ _ => c = 3 || (c = 4 && !existsB)
  | .Pre10 major point _ =>
    if major = 9 then
      if 4 ≤ point then c = 3 || (c = 4 && !existsB)
      else if 2 ≤ point then c = 3
      else c = 1
    else false

/-- C7: `Cluster::running` maps the `pg_ctl status` exit code exactly as the
claim specifies, for every runtime version: 0 is running; the per-family
"stopped" codes (`specStoppedB`) yield not-running; every other exit code
fails with `UnsupportedVersion`; a signal-killed status subprocess fails
with `CommandError`. -/
theorem C7_running_mapping :
    (∀ ver c existsB, clusterRunningCode ver (some c) existsB =
      (if c = 0 then .ok true
       else if specStoppedB ver c existsB then .ok false
       else .error (.UnsupportedVersion ver)))
    ∧ (∀ ver existsB, clusterRunningCode ver none existsB = .error .CommandError) := by
  constructor
  · intro ver c existsB
    rcases ver with ⟨ma, p, mi⟩ | ⟨ma, mi⟩ <;>
      simp only [clusterRunningCode, specStoppedB] <;>
      split_ifs <;>
      simp_all
  · intro ver existsB
    rfl

/-- C3: every lifecycle transition is idempotent in the claimed sense:
`create` is `Unmodified` exactly when `datadir/PG_VERSION` exists; `start`
is `Unmodified` exactly when the running check succeeds with `true` (after
ensuring creation); `stop` is `Unmodified` exactly when the running check
succeeds with `false`; `destroy` is `Unmodified` exactly when the data
directory is missing; in each remaining (successful) case the transition is
performed and `Modified` is returned. -/
theorem C3_lifecycle_idempotent :
    (∀ env w, clusterExists w = true → createOp env w = .ok (.Unmodified, w))
    ∧ (∀ env w, clusterExists w = false → env.mkdirOk = true → env.rt.isSome →
        env.initOut.ok = true → createOp env w = .ok (.Modified, env.initOut.world))
    ∧ (∀ env w s w1, createOp env w = .ok (s, w1) → runningOp env w1 = .ok true →
        startOp env w = .ok (.Unmodified, w1))
    ∧ (∀ env w s w1, createOp env w = .ok (s, w1) → runningOp env w1 = .ok false →
        env.rt.isSome → env.startOut.ok = true →
        startOp env w = .ok (.Modified, env.startOut.world))
    ∧ (∀ env w, runningOp env w = .ok false → stopOp env w = .ok (.Unmodified, w))
    ∧ (∀ env w, runningOp env w = .ok true → env.rt.isSome → env.stopOut.ok = true →
        stopOp env w = .ok (.Modified, env.stopOut.world))
    ∧ (∀ env w s w1, stopOp env w = .ok (s, w1) → w1.dirExists = false →
        destroyOp env w = .ok (.Unmodified, w1))
    ∧ (∀ env w s w1, stopOp env w = .ok (s, w1) → w1.dirExists = true →
        env.removeOk = true → destroyOp env w = .ok (.Modified, ⟨false, false⟩)) := by
  refine ⟨?_, ?_, ?_, ?_, ?_, ?_, ?_, ?_⟩
  · intro env w h
    simp [createOp, h]
  · intro env w h hm hrt hi
    rcases Option.isSome_iff_exists.mp hrt with ⟨v, hv⟩
    simp [createOp, h, hm, hv, hi]
  · intro env w s w1 hc hr
    simp [startOp, hc, hr]
  · intro env w s w1 hc hr hrt hs
    rcases Option.isSome_iff_exists.mp hrt with ⟨v, hv⟩
    simp [startOp, hc, hr, hv, hs]
  · intro env w hr
    simp [stopOp, hr]
  · intro env w hr hrt hs
    rcases Option.isSome_iff_exists.mp hrt with ⟨v, hv⟩
    simp [stopOp, hr, hv, hs]
  · intro env w s w1 hstop hd
    simp [destroyOp, hstop, hd]
  · intro env w s w1 hstop hd hrm
    simp [destroyOp, hstop, hd, hrm]

/-- C3 witness: the theorem's first and fifth conjuncts applied at a
concrete environment and worlds. -/
theorem C3_lifecycle_idempotent_witness :
    createOp ⟨some (.Post10 14 2), ⟨true, some 0, ⟨true, true⟩⟩, ⟨true, some 0, ⟨true, true⟩⟩,
        ⟨true, some 0, ⟨true, true⟩⟩, ⟨true, some 0, ⟨true, true⟩⟩, true, true⟩
      ⟨true, true⟩ = .ok (.Unmodified, ⟨true, true⟩) :=
  C3_lifecycle_idempotent.1 _ _ (by decide)

/-- Helper: decoding a `pg_ctl status` exit code can only fail with
`CommandError` (signal) or `UnsupportedVersion`. -/
theorem clusterRunningCode_error (ver : Version) (code : Option Int) (ex : Bool)
    (e : ClusterError) (h : clusterRunningCode ver code ex = .error e) :
    e = .CommandError ∨ e = .UnsupportedVersion ver := by
  unfold clusterRunningCode at h
  repeat' split at h
  all_goals simp_all

/-- Helper: the `running()` check can only fail with a runtime-selection
error, a spawn error, or an exit-code decoding error. -/
theorem runningOp_error (env : ClusterEnv) (w : CWorld) (e : ClusterError)
    (h : runningOp env w = .error e) :
    e = .IoError ∨ e = .RuntimeNotFound ∨ e = .CommandError ∨
      ∃ v, e = .UnsupportedVersion v := by
  unfold runningOp at h
  split at h
  · simp at h; tauto
  · rename_i ver heq
    by_cases hs : env.statusOut.ok = true
    · rw [if_pos hs] at h
      rcases clusterRunningCode_error _ _ _ _ h with h1 | h1
      · tauto
      · exact Or.inr (Or.inr (Or.inr ⟨ver, h1⟩))
    · rw [if_neg hs] at h; simp at h; tauto

/-- Replace the exit code recorded for the `pg_ctl init` invocation. -/
def setInitCode (env : ClusterEnv) (c : Option Int) : ClusterEnv :=
  { env with initOut := ⟨env.initOut.ok, c, env.initOut.world⟩ }

/-- Replace the exit code recorded for the `pg_ctl start` invocation. -/
def setStartCode (env : ClusterEnv) (c : Option Int) : ClusterEnv :=
  { env with startOut := ⟨env.startOut.ok, c, env.startOut.world⟩ }

/-- Replace the exit code recorded for the `pg_ctl stop` invocation. -/
def setStopCode (env : ClusterEnv) (c : Option Int) : ClusterEnv :=
  { env with stopOut := ⟨env.stopOut.ok, c, env.stopOut.world⟩ }

/-- C10: `create`, `start`, and `stop` never inspect the exit status of the
`pg_ctl` subprocess they invoke: their results are invariant under changing
the recorded exit code; with a spawn that succeeds, `create` returns
`Modified` even when `pg_ctl init` exited with code 1, and `stop` returns
`Modified` even when `pg_ctl stop` exited with code 1; and the only errors
are I/O (spawn) errors, runtime-selection errors, or errors from the
`running()` check (`CommandError`/`UnsupportedVersion`). -/
theorem C10_exit_status_ignored :
    (∀ env w c, createOp (setInitCode env c) w = createOp env w)
    ∧ (∀ env w c, startOp (setInitCode env c) w = startOp env w)
    ∧ (∀ env w c, startOp (setStartCode env c) w = startOp env w)
    ∧ (∀ env w c, stopOp (setStopCode env c) w = stopOp env w)
    ∧ (∀ env w c, destroyOp (setStopCode env c) w = destroyOp env w)
    ∧ (∀ env w, clusterExists w = false → env.mkdirOk = true → env.rt.isSome →
        env.initOut.ok = true → env.initOut.code = some 1 →
        createOp env w = .ok (.Modified, env.initOut.world))
    ∧ (∀ env w, runningOp env w = .ok true → env.rt.isSome → env.stopOut.ok = true →
        env.stopOut.code = some 1 → stopOp env w = .ok (.Modified, env.stopOut.world))
    ∧ (∀ env w e, createOp env w = .error e → e = .IoError ∨ e = .RuntimeNotFound)
    ∧ (∀ env w e, stopOp env w = .error e →
        e = .IoError ∨ e = .RuntimeNotFound ∨ e = .CommandError ∨
          ∃ v, e = .UnsupportedVersion v) := by
  refine ⟨?_, ?_, ?_, ?_, ?_, ?_, ?_, ?_, ?_⟩
  · rintro ⟨rt, st, ⟨io, ic, iw⟩, so, po, mk, rm⟩ w c
    rfl
  · rintro ⟨rt, st, ⟨io, ic, iw⟩, so, po, mk, rm⟩ w c
    rfl
  · rintro ⟨rt, st, io, ⟨so, sc, sw⟩, po, mk, rm⟩ w c
    rfl
  · rintro ⟨rt, st, io, so, ⟨po, pc, pw⟩, mk, rm⟩ w c
    rfl
  · rintro ⟨rt, st, io, so, ⟨po, pc, pw⟩, mk, rm⟩ w c
    rfl
  · intro env w h hm hrt hi _
    rcases Option.isSome_iff_exists.mp hrt with ⟨v, hv⟩
    simp [createOp, h, hm, hv, hi]
  · intro env w hr hrt hs _
    rcases Option.isSome_iff_exists.mp hrt with ⟨v, hv⟩
    simp [stopOp, hr, hv, hs]
  · intro env w e h
    unfold createOp at h
    split at h
    · simp at h
    · split at h
      · simp at h; tauto
      · split at h
        · simp at h; tauto
        · split at h <;> simp at h <;> tauto
  · intro env w e h
    unfold stopOp at h
    split at h
    · rename_i e2 heq
      simp at h
      exact h ▸ runningOp_error env w e2 heq
    · simp at h
    · split at h
      · simp at h; tauto
      · split at h
        · simp at h
        · simp at h; tauto

/-- C10 witness: `create` returns `Modified` at a concrete environment in
which `pg_ctl init` exits with code 1. -/
theorem C10_exit_status_ignored_witness :
    createOp ⟨some (.Post10 14 2), ⟨true, some 0, ⟨true, true⟩⟩, ⟨true, some 1, ⟨true, true⟩⟩,
        ⟨true, some 0, ⟨true, true⟩⟩, ⟨true, some 0, ⟨true, true⟩⟩, true, true⟩
      ⟨false, false⟩ = .ok (.Modified, ⟨true, true⟩) :=
  C10_exit_status_ignored.2.2.2.2.2.1 _ _ (by decide) (by decide) (by decide) (by decide)
    (by decide)

/-- The three lock states of `lock.rs`: `UnlockedFile`, `LockedFileShared`,
`LockedFileExclusive`. -/
inductive LockSt where
  | free
  | shared
  | exclusive
deriving DecidableEq, Repr

/-- Response of the OS to one non-blocking `flock(2)` call: success, `EAGAIN`
(would block), or another errno. -/
inductive FlockResp where
  | ok
  | wouldBlock
  | err
deriving DecidableEq, Repr

/-- Model of the `try_lock_shared` / `try_lock_exclusive` / `try_unlock`
methods of `lock.rs`: from state `src`, attempt to move to `dst`; `Right`
means the transition happened, `Left` means the OS refused without blocking
and the lock remains in `src`. -/
def flockTry (src dst : LockSt) (resp : FlockResp) : Except Unit (LockSt ⊕ LockSt) :=
  match resp with
  | .ok => .ok (.inr dst)
  | .wouldBlock => .ok (.inl src)
  | .err => .error ()

/-- Model of the blocking `lock_shared` / `lock_exclusive` / `unlock`
methods of `lock.rs`: reach `dst` or fail with an errno. -/
def flockBlock (dst : LockSt) (ok : Bool) : Except Unit LockSt :=
  if ok then .ok dst else .error ()

/-- The mutating `Subject` operations. -/
inductive MutOp where
  | start
  | stop
  | destroy
deriving DecidableEq, Repr

/-- Events recorded by the coordination models: a mutating subject operation
invoked while the file lock is in the given state, or a sleep of the given
number of milliseconds before a retry. -/
inductive LEv where
  | subj (op : MutOp) (l : LockSt)
  | sleep (ms : Nat)
deriving DecidableEq, Repr

/-- The `coordinate::CoordinateError` enum as used by `coordinate.rs`,
instantiated at `S::Error = ClusterError` (payloads of the I/O and Unix
variants dropped). -/
inductive CoErr where
  | IoError
  | UnixError
  | ControlError (e : ClusterError)
  | DoesNotExist
  | Exhausted
deriving DecidableEq, Repr

/-- Environment for one iteration of the `cluster/resource.rs` startup loop:
the OS response to `try_exclusive`, the outcomes of the blocking
`shared()`, of `running()`, and of `release()`, and the `u32` drawn from
the random number generator. -/
structure RIter where
  tryExcl : FlockResp
  sharedOk : Bool
  runningRes : Except ClusterError Bool
  releaseOk : Bool
  rng : Nat
deriving Repr

/-- Environment for a run of the `cluster/resource.rs` startup functions:
one `RIter` per loop iteration, plus the outcomes of the (at most one)
`start()` call and of the `exists()` check. -/
structure REnv where
  iters : Nat → RIter
  startRes : Except ClusterError State
  existsRes : Except ClusterError Bool

/-- The `cluster/resource.rs` `startup` function (lines 175-211): an
unbounded `loop` that tries the exclusive lock, falls back to a blocking
shared lock plus a `running()` check, and otherwise releases, sleeps
`200 + (rng % 800)` milliseconds, and retries. Fuel bounds the number of
iterations the model evaluates; `none` means the fuel ran out (the Rust
loop is still running). -/
def rStartup (env : REnv) : Nat → Nat → Option (Except CoErr (State × LockSt) × List LEv)
  | 0, _ => none
  | fuel + 1, k =>
    let it := env.iters k
    match flockTry .free .exclusive it.tryExcl with
    | .error _ => some (.error .UnixError, [])
    | .ok (.inr lockE) =>
      match env.startRes with
      | .error e => some (.error (.ControlError e), [.subj .start lockE])
      | .ok st => some (.ok (st, lockE), [.subj .start lockE])
    | .ok (.inl _) =>
      match flockBlock .shared it.sharedOk with
      | .error _ => some (.error .UnixError, [])
      | .ok lockS =>
        match it.runningRes with
        | .error e => some (.error (.ControlError e), [])
        | .ok true => some (.ok (.Unmodified, lockS), [])
        | .ok false =>
          match flockBlock .free it.releaseOk with
          | .error _ => some (.error .UnixError, [])
          | .ok _ =>
            let delay := 200 + it.rng % 800
            match rStartup env fuel (k + 1) with
            | none => none
            | some (r, evs) => some (r, .sleep delay :: evs)

/-- The `cluster/resource.rs` `startup_if_exists` function (lines 215-256):
as `rStartup`, but under the exclusive lock the subject is started only if
it exists, else the call fails with `DoesNotExist`. -/
def rStartupIfExists (env : REnv) : Nat → Nat → Option (Except CoErr (State × LockSt) × List LEv)
  | 0, _ => none
  | fuel + 1, k =>
    let it := env.iters k
    match flockTry .free .exclusive it.tryExcl with
    | .error _ => some (.error .UnixError, [])
    | .ok (.inr lockE) =>
      match env.existsRes with
      | .error e => some (.error (.ControlError e), [])
      | .ok true =>
        match env.startRes with
        | .error e => some (.error (.ControlError e), [.subj .start lockE])
        | .ok st => some (.ok (st, lockE), [.subj .start lockE])
      | .ok false => some (.error .DoesNotExist, [])
    | .ok (.inl _) =>
      match flockBlock .shared it.sharedOk with
      | .error _ => some (.error .UnixError, [])
      | .ok lockS =>
        match it.runningRes with
        | .error e => some (.error (.ControlError e), [])
        | .ok true => some (.ok (.Unmodified, lockS), [])
        | .ok false =>
          match flockBlock .free it.releaseOk with
          | .error _ => some (.error .UnixError, [])
          | .ok _ =>
            let delay := 200 + it.rng % 800
            match rStartupIfExists env fuel (k + 1) with
            | none => none
            | some (r, evs) => some (r, .sleep delay :: evs)

/-- Environment for one `cluster/resource.rs` shutdown/destroy call. -/
structure RShutEnv where
  tryExcl : FlockResp
  actionRes : Except ClusterError State
  releaseOk : Bool
deriving Repr

/-- The `cluster/resource.rs` `shutdown` function (lines 269-288): try to
upgrade shared to exclusive; if refused, return `(Unmodified, shared)`
without touching the subject; if obtained, call `stop()` and return its
state together with the still-held exclusive resource – releasing only on
the error path. -/
def rShutdown (env : RShutEnv) : Except CoErr (State × LockSt) × List LEv :=
  match flockTry .shared .exclusive env.tryExcl with
  | .error _ => (.error .UnixError, [])
  | .ok (.inl lockS) => (.ok (.Unmodified, lockS), [])
  | .ok (.inr lockE) =>
    match env.actionRes with
    | .ok st => (.ok (st, lockE), [.subj .stop lockE])
    | .error e =>
      match flockBlock .free env.releaseOk with
      | .ok _ => (.error (.ControlError e), [.subj .stop lockE])
      | .error _ => (.error .UnixError, [.subj .stop lockE])

/-- The `cluster/resource.rs` `destroy` function (lines 292-311): as
`rShutdown` but invoking `destroy()` in place of `stop()`. -/
def rDestroy (env : RShutEnv) : Except CoErr (State × LockSt) × List LEv :=
  match flockTry .shared .exclusive env.tryExcl with
  | .error _ => (.error .UnixError, [])
  | .ok (.inl lockS) => (.ok (.Unmodified, lockS), [])
  | .ok (.inr lockE) =>
    match env.actionRes with
    | .ok st => (.ok (st, lockE), [.subj .destroy lockE])
    | .error e =>
      match flockBlock .free env.releaseOk with
      | .ok _ => (.error (.ControlError e), [.subj .destroy lockE])
      | .error _ => (.error .UnixError, [.subj .destroy lockE])

/-- The `Outcome` enum of the `coordinate::retries` module. -/
inductive ROutcome (T σ E : Type) where
  | ok (t : T)
  | retry (s : σ)
  | err (e : E)

/-- The `Error` enum of the `coordinate::retries` module. -/
inductive RetryError (σ E : Type) where
  | exhausted (s : σ)
  | other (e : E)

/-- The `retries::retry` combinator (`coordinate.rs` lines 310-335): run the
operation; on `Retry`, consume the next delay from the iterator (modelled
as a list; the sleep itself has no observable effect here) and loop; when
the iterator is exhausted, fail with `Exhausted`. -/
def retryRun {T σ E : Type} (retries : List Nat) (op : σ → ROutcome T σ E) (s : σ) :
    Except (RetryError σ E) T :=
  match op s with
  | .ok t => .ok t
  | .err e => .error (.other e)
  | .retry s2 =>
    match retries with
    | [] => .error (.exhausted s2)
    | _ :: rest => retryRun rest op s2

/-- Environment for one iteration of the `coordinate.rs` startup retry
loop: the OS responses to `try_lock_exclusive` and `try_lock_shared`, the
outcome of `running()`, and of `unlock()`. -/
structure CIter where
  tryExcl : FlockResp
  tryShared : FlockResp
  runningRes : Except ClusterError Bool
  unlockOk : Bool
deriving Repr

/-- Environment for a run of the `coordinate.rs` startup functions. -/
structure CEnv where
  iters : Nat → CIter
  startRes : Except ClusterError State
  downgradeOk : Bool
  existsRes : Except ClusterError Bool

/-- One attempt of the closure passed to `retries::retry` by
`coordinate::startup` (`coordinate.rs` lines 157-186): try exclusive, else
try shared and check `running()`, else unlock and retry. The operation
state is the iteration index (in Rust it is the unlocked file, which the
model keeps implicit: every `Retry` carries the lock back in the unlocked
state). -/
def cStartupOp (env : CEnv) (k : Nat) : ROutcome (LockSt ⊕ LockSt) Nat CoErr :=
  let it := env.iters k
  match flockTry .free .exclusive it.tryExcl with
  | .error _ => .err .UnixError
  | .ok (.inr lockE) => .ok (.inr lockE)
  | .ok (.inl _) =>
    match flockTry .free .shared it.tryShared with
    | .error _ => .err .UnixError
    | .ok (.inl _) => .retry (k + 1)
    | .ok (.inr lockS) =>
      match it.runningRes with
      | .error e => .err (.ControlError e)
      | .ok true => .ok (.inl lockS)
      | .ok false =>
        match flockBlock .free it.unlockOk with
        | .ok _ => .retry (k + 1)
        | .error _ => .err .UnixError

/-- The `coordinate::startup` function (`coordinate.rs` lines 150-204): run
the retry loop; with a shared lock and a running subject return
`Unmodified`; with the exclusive lock call `subject.start(options)` and
downgrade to shared, returning `Modified`; when the retry iterator is
exhausted, fail with `Exhausted`. -/
def cStartup (retries : List Nat) (env : CEnv) : Except CoErr (State × LockSt) × List LEv :=
  match retryRun retries (cStartupOp env) 0 with
  | .ok (.inl lockS) => (.ok (.Unmodified, lockS), [])
  | .ok (.inr lockE) =>
    match env.startRes with
    | .error e => (.error (.ControlError e), [.subj .start lockE])
    | .ok _ =>
      match flockBlock .shared env.downgradeOk with
      | .ok lockS => (.ok (.Modified, lockS), [.subj .start lockE])
      | .error _ => (.error .UnixError, [.subj .start lockE])
  | .error (.exhausted _) => (.error .Exhausted, [])
  | .error (.other e) => (.error e, [])

/-- The `coordinate::startup_if_exists` function (`coordinate.rs` lines
206-264): as `cStartup`, but under the exclusive lock the subject is
started only if `exists()` returns true, else the call fails with
`DoesNotExist`. -/
def cStartupIfExists (retries : List Nat) (env : CEnv) :
    Except CoErr (State × LockSt) × List LEv :=
  match retryRun retries (cStartupOp env) 0 with
  | .ok (.inl lockS) => (.ok (.Unmodified, lockS), [])
  | .ok (.inr lockE) =>
    match env.existsRes with
    | .error e => (.error (.ControlError e), [])
    | .ok true =>
      match env.startRes with
      | .error e => (.error (.ControlError e), [.subj .start lockE])
      | .ok _ =>
        match flockBlock .shared env.downgradeOk with
        | .ok lockS => (.ok (.Modified, lockS), [.subj .start lockE])
        | .error _ => (.error .UnixError, [.subj .start lockE])
    | .ok false => (.error .DoesNotExist, [])
  | .error (.exhausted _) => (.error .Exhausted, [])
  | .error (.other e) => (.error e, [])

/-- Environment for one `coordinate.rs` shutdown call. -/
structure CShutEnv where
  tryExcl : FlockResp
  actionRes : Except ClusterError State
  unlockLeftOk : Bool
  unlockRightOk : Bool
deriving Repr

/-- The `coordinate::shutdown` function (`coordinate.rs` lines 266-293),
generic in the cleanup action (`subject.stop()` from `run_and_stop`, or
`subject.destroy()` from `run_and_destroy` – the tag `op` records which):
try to upgrade to exclusive; if refused, unlock and return `None`; if
obtained, run the action under the exclusive lock, unlock, and return its
state. -/
def cShutdown (op : MutOp) (env : CShutEnv) : Except CoErr (Option State × LockSt) × List LEv :=
  match flockTry .shared .exclusive env.tryExcl with
  | .error _ => (.error .UnixError, [])
  | .ok (.inl _) =>
    match flockBlock .free env.unlockLeftOk with
    | .ok lockF => (.ok (none, lockF), [])
    | .error _ => (.error .UnixError, [])
  | .ok (.inr lockE) =>
    match env.actionRes with
    | .ok st =>
      match flockBlock .free env.unlockRightOk with
      | .ok lockF => (.ok (some st, lockF), [.subj op lockE])
      | .error _ => (.error .UnixError, [.subj op lockE])
    | .error e => (.error (.ControlError e), [.subj op lockE])

theorem flockTry_inr (src dst : LockSt) (resp : FlockResp) (l : LockSt)
    (h : flockTry src dst resp = .ok (.inr l)) : l = dst := by
  cases resp <;> simp_all [flockTry]

theorem flockTry_inl (src dst : LockSt) (resp : FlockResp) (l : LockSt)
    (h : flockTry src dst resp = .ok (.inl l)) : l = src := by
  cases resp <;> simp_all [flockTry]

theorem flockBlock_ok (dst : LockSt) (b : Bool) (l : LockSt)
    (h : flockBlock dst b = .ok l) : l = dst := by
  cases b <;> simp_all [flockBlock]

theorem cStartupOp_ok (env : CEnv) (k : Nat) (v : LockSt ⊕ LockSt)
    (h : cStartupOp env k = .ok v) : v = .inl .shared ∨ v = .inr .exclusive := by
  unfold cStartupOp at h
  dsimp only at h
  split at h
  · simp at h
  · rename_i lockE heq
    simp at h
    exact Or.inr (h ▸ congrArg Sum.inr (flockTry_inr _ _ _ _ heq))
  · split at h
    · simp at h
    · simp at h
    · rename_i lockS heq
      split at h
      · simp at h
      · simp at h
        exact Or.inl (h ▸ congrArg Sum.inl (flockTry_inr _ _ _ _ heq))
      · split at h <;> simp at h

theorem retryRun_cStartupOp_ok (env : CEnv) (retries : List Nat) (k : Nat)
    (v : LockSt ⊕ LockSt) (h : retryRun retries (cStartupOp env) k = .ok v) :
    v = .inl .shared ∨ v = .inr .exclusive := by
  induction retries generalizing k with
  | nil =>
    unfold retryRun at h
    cases hop : cStartupOp env k with
    | ok t => rw [hop] at h; simp at h; exact h ▸ cStartupOp_ok env k t hop
    | retry s2 => rw [hop] at h; simp at h
    | err e => rw [hop] at h; simp at h
  | cons d rest ih =>
    unfold retryRun at h
    cases hop : cStartupOp env k with
    | ok t => rw [hop] at h; simp at h; exact h ▸ cStartupOp_ok env k t hop
    | retry s2 =>
      rw [hop] at h
      simp only at h
      exact ih s2 h
    | err e => rw [hop] at h; simp at h

theorem rStartup_invariants (env : REnv) (fuel : Nat) :
    ∀ k r evs, rStartup env fuel k = some (r, evs) →
      ((∀ op l, LEv.subj op l ∈ evs → l = .exclusive)
        ∧ (∀ st l, r = .ok (st, l) → l = .shared ∨ l = .exclusive)
        ∧ (∀ d, LEv.sleep d ∈ evs → 200 ≤ d ∧ d < 1000)
        ∧ r ≠ .error .Exhausted) := by
  induction fuel with
  | zero => intro k r evs h; simp [rStartup] at h
  | succ n ih =>
    intro k r evs h
    unfold rStartup at h
    dsimp only at h
    split at h
    · simp at h
      obtain ⟨h1, h2⟩ := h
      subst h1; subst h2
      exact ⟨by simp, by simp, by simp, by simp⟩
    · rename_i lockE heq
      have hE : lockE = .exclusive := flockTry_inr _ _ _ _ heq
      subst hE
      split at h <;> simp at h <;> obtain ⟨h1, h2⟩ := h <;> subst h1 <;> subst h2
      · exact ⟨by intro op l hm; simp at hm; exact hm.2, by simp, by simp, by simp⟩
      · refine ⟨by intro op l hm; simp at hm; exact hm.2, ?_, by simp, by simp⟩
        intro st l hr
        simp at hr
        exact Or.inr hr.2.symm
    · split at h
      · simp at h
        obtain ⟨h1, h2⟩ := h
        subst h1; subst h2
        exact ⟨by simp, by simp, by simp, by simp⟩
      · rename_i lockS heqS
        have hS : lockS = .shared := flockBlock_ok _ _ _ heqS
        subst hS
        split at h
        · simp at h
          obtain ⟨h1, h2⟩ := h
          subst h1; subst h2
          exact ⟨by simp, by simp, by simp, by simp⟩
        · simp at h
          obtain ⟨h1, h2⟩ := h
          subst h1; subst h2
          refine ⟨by simp, ?_, by simp, by simp⟩
          intro st l hr
          simp at hr
          exact Or.inl hr.2.symm
        · split at h
          · simp at h
            obtain ⟨h1, h2⟩ := h
            subst h1; subst h2
            exact ⟨by simp, by simp, by simp, by simp⟩
          · split at h
            · simp at h
            · rename_i r2 evs2 hrq
              simp at h
              obtain ⟨hr2, hevs⟩ := h
              obtain ⟨ih1, ih2, ih3, ih4⟩ := ih (k + 1) r2 evs2 hrq
              subst hr2
              subst hevs
              refine ⟨?_, ih2, ?_, ih4⟩
              · intro op l hm
                simp at hm
                exact ih1 op l hm
              · intro d hm
                simp at hm
                rcases hm with hm | hm
                · omega
                · exact ih3 d hm

theorem rStartupIfExists_invariants (env : REnv) (fuel : Nat) :
    ∀ k r evs, rStartupIfExists env fuel k = some (r, evs) →
      ((∀ op l, LEv.subj op l ∈ evs → l = .exclusive)
        ∧ (∀ st l, r = .ok (st, l) → l = .shared ∨ l = .exclusive)
        ∧ r ≠ .error .Exhausted) := by
  induction fuel with
  | zero => intro k r evs h; simp [rStartupIfExists] at h
  | succ n ih =>
    intro k r evs h
    unfold rStartupIfExists at h
    dsimp only at h
    split at h
    · simp at h
      obtain ⟨h1, h2⟩ := h
      subst h1; subst h2
      exact ⟨by simp, by simp, by simp⟩
    · rename_i lockE heq
      have hE : lockE = .exclusive := flockTry_inr _ _ _ _ heq
      subst hE
      split at h
      · simp at h
        obtain ⟨h1, h2⟩ := h
        subst h1; subst h2
        exact ⟨by simp, by simp, by simp⟩
      · split at h <;> simp at h <;> obtain ⟨h1, h2⟩ := h <;> subst h1 <;> subst h2
        · exact ⟨by intro op l hm; simp at hm; exact hm.2, by simp, by simp⟩
        · refine ⟨by intro op l hm; simp at hm; exact hm.2, ?_, by simp⟩
          intro st l hr
          simp at hr
          exact Or.inr hr.2.symm
      · simp at h
        obtain ⟨h1, h2⟩ := h
        subst h1; subst h2
        exact ⟨by simp, by simp, by simp⟩
    · split at h
      · simp at h
        obtain ⟨h1, h2⟩ := h
        subst h1; subst h2
        exact ⟨by simp, by simp, by simp⟩
      · rename_i lockS heqS
        have hS : lockS = .shared := flockBlock_ok _ _ _ heqS
        subst hS
        split at h
        · simp at h
          obtain ⟨h1, h2⟩ := h
          subst h1; subst h2
          exact ⟨by simp, by simp, by simp⟩
        · simp at h
          obtain ⟨h1, h2⟩ := h
          subst h1; subst h2
          refine ⟨by simp, ?_, by simp⟩
          intro st l hr
          simp at hr
          exact Or.inl hr.2.symm
        · split at h
          · simp at h
            obtain ⟨h1, h2⟩ := h
            subst h1; subst h2
            exact ⟨by simp, by simp, by simp⟩
          · split at h
            · simp at h
            · rename_i r2 evs2 hrq
              simp at h
              obtain ⟨hr2, hevs⟩ := h
              obtain ⟨ih1, ih2, ih3⟩ := ih (k + 1) r2 evs2 hrq
              subst hr2
              subst hevs
              refine ⟨?_, ih2, ih3⟩
              intro op l hm
              simp at hm
              exact ih1 op l hm

theorem cStartup_invariants (retries : List Nat) (env : CEnv)
    (r : Except CoErr (State × LockSt)) (evs : List LEv)
    (h : cStartup retries env = (r, evs)) :
    (∀ op l, LEv.subj op l ∈ evs → l = .exclusive)
    ∧ (∀ st l, r = .ok (st, l) → l = .shared ∨ l = .exclusive) := by
  unfold cStartup at h
  split at h
  · rename_i lockS heq
    rcases retryRun_cStartupOp_ok env retries 0 _ heq with hv | hv <;> simp at hv
    subst hv
    simp at h
    obtain ⟨h1, h2⟩ := h
    subst h1; subst h2
    refine ⟨by simp, ?_⟩
    intro st l hr
    simp at hr
    exact Or.inl hr.2.symm
  · rename_i lockE heq
    rcases retryRun_cStartupOp_ok env retries 0 _ heq with hv | hv <;> simp at hv
    subst hv
    split at h
    · simp at h
      obtain ⟨h1, h2⟩ := h
      subst h1; subst h2
      exact ⟨by intro op l hm; simp at hm; exact hm.2, by simp⟩
    · split at h <;> simp at h <;> obtain ⟨h1, h2⟩ := h <;> subst h1 <;> subst h2
      · rename_i lockS heqS
        have hS : lockS = .shared := flockBlock_ok _ _ _ heqS
        subst hS
        refine ⟨by intro op l hm; simp at hm; exact hm.2, ?_⟩
        intro st l hr
        simp at hr
        exact Or.inl hr.2.symm
      · exact ⟨by intro op l hm; simp at hm; exact hm.2, by simp⟩
  · simp at h
    obtain ⟨h1, h2⟩ := h
    subst h1; subst h2
    exact ⟨by simp, by simp⟩
  · simp at h
    obtain ⟨h1, h2⟩ := h
    subst h1; subst h2
    exact ⟨by simp, by simp⟩

theorem cStartupIfExists_invariants (retries : List Nat) (env : CEnv)
    (r : Except CoErr (State × LockSt)) (evs : List LEv)
    (h : cStartupIfExists retries env = (r, evs)) :
    (∀ op l, LEv.subj op l ∈ evs → l = .exclusive)
    ∧ (∀ st l, r = .ok (st, l) → l = .shared ∨ l = .exclusive) := by
  unfold cStartupIfExists at h
  split at h
  · rename_i lockS heq
    rcases retryRun_cStartupOp_ok env retries 0 _ heq with hv | hv <;> simp at hv
    subst hv
    simp at h
    obtain ⟨h1, h2⟩ := h
    subst h1; subst h2
    refine ⟨by simp, ?_⟩
    intro st l hr
    simp at hr
    exact Or.inl hr.2.symm
  · rename_i lockE heq
    rcases retryRun_cStartupOp_ok env retries 0 _ heq with hv | hv <;> simp at hv
    subst hv
    split at h
    · simp at h
      obtain ⟨h1, h2⟩ := h
      subst h1; subst h2
      exact ⟨by simp, by simp⟩
    · split at h
      · simp at h
        obtain ⟨h1, h2⟩ := h
        subst h1; subst h2
        exact ⟨by intro op l hm; simp at hm; exact hm.2, by simp⟩
      · split at h <;> simp at h <;> obtain ⟨h1, h2⟩ := h <;> subst h1 <;> subst h2
        · rename_i lockS heqS
          have hS : lockS = .shared := flockBlock_ok _ _ _ heqS
          subst hS
          refine ⟨by intro op l hm; simp at hm; exact hm.2, ?_⟩
          intro st l hr
          simp at hr
          exact Or.inl hr.2.symm
        · exact ⟨by intro op l hm; simp at hm; exact hm.2, by simp⟩
    · simp at h
      obtain ⟨h1, h2⟩ := h
      subst h1; subst h2
      exact ⟨by simp, by simp⟩
  · simp at h
    obtain ⟨h1, h2⟩ := h
    subst h1; subst h2
    exact ⟨by simp, by simp⟩
  · simp at h
    obtain ⟨h1, h2⟩ := h
    subst h1; subst h2
    exact ⟨by simp, by simp⟩

theorem cShutdown_events (op : MutOp) (env : CShutEnv)
    (r : Except CoErr (Option State × LockSt)) (evs : List LEv)
    (h : cShutdown op env = (r, evs)) :
    ∀ o l, LEv.subj o l ∈ evs → l = .exclusive := by
  unfold cShutdown at h
  split at h
  · simp at h
    obtain ⟨h1, h2⟩ := h
    subst h1; subst h2
    simp
  · split at h <;> simp at h <;> obtain ⟨h1, h2⟩ := h <;> subst h1 <;> subst h2 <;> simp
  · rename_i lockE heq
    have hE : lockE = .exclusive := flockTry_inr _ _ _ _ heq
    subst hE
    split at h
    · split at h <;> simp at h <;> obtain ⟨h1, h2⟩ := h <;> subst h1 <;> subst h2 <;>
        intro o l hm <;> simp at hm <;> exact hm.2
    · simp at h
      obtain ⟨h1, h2⟩ := h
      subst h1; subst h2
      intro o l hm
      simp at hm
      exact hm.2

theorem rShutdown_events (env : RShutEnv)
    (r : Except CoErr (State × LockSt)) (evs : List LEv)
    (h : rShutdown env = (r, evs)) :
    ∀ o l, LEv.subj o l ∈ evs → l = .exclusive := by
  unfold rShutdown at h
  split at h
  · simp at h
    obtain ⟨h1, h2⟩ := h
    subst h1; subst h2
    simp
  · simp at h
    obtain ⟨h1, h2⟩ := h
    subst h1; subst h2
    simp
  · rename_i lockE heq
    have hE : lockE = .exclusive := flockTry_inr _ _ _ _ heq
    subst hE
    split at h
    · simp at h
      obtain ⟨h1, h2⟩ := h
      subst h1; subst h2
      intro o l hm
      simp at hm
      exact hm.2
    · split at h <;> simp at h <;> obtain ⟨h1, h2⟩ := h <;> subst h1 <;> subst h2 <;>
        intro o l hm <;> simp at hm <;> exact hm.2

theorem rDestroy_events (env : RShutEnv)
    (r : Except CoErr (State × LockSt)) (evs : List LEv)
    (h : rDestroy env = (r, evs)) :
    ∀ o l, LEv.subj o l ∈ evs → l = .exclusive := by
  unfold rDestroy at h
  split at h
  · simp at h
    obtain ⟨h1, h2⟩ := h
    subst h1; subst h2
    simp
  · simp at h
    obtain ⟨h1, h2⟩ := h
    subst h1; subst h2
    simp
  · rename_i lockE heq
    have hE : lockE = .exclusive := flockTry_inr _ _ _ _ heq
    subst hE
    split at h
    · simp at h
      obtain ⟨h1, h2⟩ := h
      subst h1; subst h2
      intro o l hm
      simp at hm
      exact hm.2
    · split at h <;> simp at h <;> obtain ⟨h1, h2⟩ := h <;> subst h1 <;> subst h2 <;>
        intro o l hm <;> simp at hm <;> exact hm.2

theorem retryRun_always_retry {T σ E : Type} (retries : List Nat) (op : σ → ROutcome T σ E)
    (f : σ → σ) (h : ∀ s, op s = .retry (f s)) (s : σ) :
    ∃ s2, retryRun retries op s = .error (.exhausted s2) := by
  induction retries generalizing s with
  | nil =>
    unfold retryRun
    rw [h s]
    exact ⟨f s, rfl⟩
  | cons d rest ih =>
    unfold retryRun
    rw [h s]
    exact ih (f s)

/-- C1: across the startup, startup-if-exists, shutdown, and destroy
algorithms of both the generic coordination layer (`coordinate.rs`) and the
cluster resource layer (`cluster/resource.rs`), every invocation of a
mutating subject operation (`start`, `stop`, `destroy`) happens while the
file lock is held exclusively, and every successful startup returns holding
a shared or exclusive lock. -/
theorem C1_lock_discipline :
    (∀ retries env r evs, cStartup retries env = (r, evs) →
      (∀ op l, LEv.subj op l ∈ evs → l = .exclusive)
      ∧ (∀ st l, r = .ok (st, l) → l = .shared ∨ l = .exclusive))
    ∧ (∀ retries env r evs, cStartupIfExists retries env = (r, evs) →
      (∀ op l, LEv.subj op l ∈ evs → l = .exclusive)
      ∧ (∀ st l, r = .ok (st, l) → l = .shared ∨ l = .exclusive))
    ∧ (∀ op env r evs, cShutdown op env = (r, evs) →
      ∀ o l, LEv.subj o l ∈ evs → l = .exclusive)
    ∧ (∀ env fuel k r evs, rStartup env fuel k = some (r, evs) →
      (∀ op l, LEv.subj op l ∈ evs → l = .exclusive)
      ∧ (∀ st l, r = .ok (st, l) → l = .shared ∨ l = .exclusive))
    ∧ (∀ env fuel k r evs, rStartupIfExists env fuel k = some (r, evs) →
      (∀ op l, LEv.subj op l ∈ evs → l = .exclusive)
      ∧ (∀ st l, r = .ok (st, l) → l = .shared ∨ l = .exclusive))
    ∧ (∀ env r evs, rShutdown env = (r, evs) →
      ∀ o l, LEv.subj o l ∈ evs → l = .exclusive)
    ∧ (∀ env r evs, rDestroy env = (r, evs) →
      ∀ o l, LEv.subj o l ∈ evs → l = .exclusive) := by
  refine ⟨?_, ?_, cShutdown_events, ?_, ?_, rShutdown_events, rDestroy_events⟩
  · intro retries env r evs h
    exact cStartup_invariants retries env r evs h
  · intro retries env r evs h
    exact cStartupIfExists_invariants retries env r evs h
  · intro env fuel k r evs h
    obtain ⟨h1, h2, _, _⟩ := rStartup_invariants env fuel k r evs h
    exact ⟨h1, h2⟩
  · intro env fuel k r evs h
    obtain ⟨h1, h2, _⟩ := rStartupIfExists_invariants env fuel k r evs h
    exact ⟨h1, h2⟩

/-- A coordination environment in which the exclusive lock is immediately
available and the subject starts successfully. -/
def cEnvFast : CEnv :=
  ⟨fun _ => ⟨.ok, .ok, .ok true, true⟩, .ok .Modified, true, .ok true⟩

/-- C1 witness: the successful-startup conjunct at a concrete environment
where `cStartup` succeeds holding the downgraded shared lock. -/
theorem C1_lock_discipline_witness :
    LockSt.shared = LockSt.shared ∨ LockSt.shared = LockSt.exclusive :=
  (C1_lock_discipline.1 [] cEnvFast (.ok (.Modified, .shared))
    [.subj .start .exclusive] rfl).2 .Modified .shared rfl

/-- A coordination environment in which another process holds the lock
exclusively forever: both non-blocking lock attempts always report
would-block. -/
def cEnvBlocked : CEnv :=
  ⟨fun _ => ⟨.wouldBlock, .wouldBlock, .ok false, true⟩, .ok .Modified, true, .ok true⟩

/-- C2 counterexample: `coordinate::startup` (the startup used by
`run_and_stop`, whose backoff iterator is bounded by a 60-second maximum
elapsed time) returns `CoordinateError::Exhausted` once its retry iterator
is exhausted, so startup can fail merely because retries ran out. -/
theorem C2_counterexample :
    cStartup [] cEnvBlocked = (.error .Exhausted, []) := rfl

/-- C2 (amended): in `cluster/resource.rs` the startup loop is indeed
unbounded with every retry preceded by a sleep of `200 + (rng % 800)`
milliseconds – in `[200, 1000)` – and it never fails with `Exhausted`; but
the `coordinate.rs` startup used by `run_and_stop` draws its delays from a
bounded backoff iterator and fails with `CoordinateError::Exhausted` when
the iterator is exhausted while the lock is still contended. -/
theorem C2_startup_backoff :
    (∀ env fuel k r evs, rStartup env fuel k = some (r, evs) →
      (∀ d, LEv.sleep d ∈ evs → 200 ≤ d ∧ d < 1000) ∧ r ≠ .error .Exhausted)
    ∧ (∀ retries env,
        (∀ j, (env.iters j).tryExcl = .wouldBlock ∧ (env.iters j).tryShared = .wouldBlock) →
        cStartup retries env = (.error .Exhausted, [])) := by
  constructor
  · intro env fuel k r evs h
    obtain ⟨_, _, h3, h4⟩ := rStartup_invariants env fuel k r evs h
    exact ⟨h3, h4⟩
  · intro retries env hblock
    have hop : ∀ j, cStartupOp env j = .retry (j + 1) := by
      intro j
      unfold cStartupOp
      dsimp only
      rw [(hblock j).1, (hblock j).2]
      rfl
    obtain ⟨s2, hs2⟩ := retryRun_always_retry retries (cStartupOp env) (· + 1) hop 0
    unfold cStartup
    rw [hs2]

/-- C2 witness: the sleep-bound conjunct at a concrete execution of
`rStartup` that retries once before succeeding. -/
theorem C2_startup_backoff_witness :
    (200 ≤ 200 + 7 % 800 ∧ 200 + 7 % 800 < 1000) ∧
      (Except.ok (State.Unmodified, LockSt.shared) : Except CoErr (State × LockSt))
        ≠ .error .Exhausted := by
  have henv : rStartup ⟨fun _ => ⟨.wouldBlock, true, .ok true, true, 7⟩, .ok .Modified, .ok true⟩
      1 0 = some (.ok (.Unmodified, .shared), []) := rfl
  have h := C2_startup_backoff.1 _ 1 0 _ _ henv
  exact ⟨⟨by omega, by omega⟩, h.2⟩

/-- C4 counterexample: when the upgrade succeeds but the cluster is already
stopped, `cluster/resource.rs::shutdown` returns `(Unmodified, exclusive)`,
not `(Modified, exclusive)` as the claim states – the returned state is
whatever `stop()` returned. -/
theorem C4_counterexample :
    rShutdown ⟨.ok, .ok .Unmodified, true⟩
        = (.ok (.Unmodified, .exclusive), [.subj .stop .exclusive])
      ∧ State.Unmodified ≠ State.Modified :=
  ⟨rfl, by simp⟩

/-- C4 (amended): if the non-blocking upgrade is refused, shutdown/destroy
return `(Unmodified, shared)` without invoking the subject; if the
exclusive lock is obtained, they invoke `subject.stop()` (respectively
`subject.destroy()`) under it and return the state that call produced –
`Modified` or `Unmodified` – together with the still-held exclusive
resource; the lock is released inside the call only on the action-error
path, where the action's error is propagated as `ControlError`. -/
theorem C4_shutdown_behavior (env : RShutEnv) :
    (env.tryExcl = .wouldBlock →
      rShutdown env = (.ok (.Unmodified, .shared), [])
      ∧ rDestroy env = (.ok (.Unmodified, .shared), []))
    ∧ (∀ st, env.tryExcl = .ok → env.actionRes = .ok st →
      rShutdown env = (.ok (st, .exclusive), [.subj .stop .exclusive])
      ∧ rDestroy env = (.ok (st, .exclusive), [.subj .destroy .exclusive]))
    ∧ (∀ e, env.tryExcl = .ok → env.actionRes = .error e → env.releaseOk = true →
      rShutdown env = (.error (.ControlError e), [.subj .stop .exclusive])
      ∧ rDestroy env = (.error (.ControlError e), [.subj .destroy .exclusive])) := by
  refine ⟨?_, ?_, ?_⟩
  · intro h
    constructor <;> simp [rShutdown, rDestroy, flockTry, h]
  · intro st h ha
    constructor <;> simp [rShutdown, rDestroy, flockTry, h, ha]
  · intro e h ha hr
    constructor <;> simp [rShutdown, rDestroy, flockTry, flockBlock, h, ha, hr]

/-- C4 witness: the refused-upgrade conjunct at a concrete environment. -/
theorem C4_shutdown_behavior_witness :
    rShutdown ⟨.wouldBlock, .ok .Modified, true⟩ = (.ok (.Unmodified, .shared), [])
      ∧ rDestroy ⟨.wouldBlock, .ok .Modified, true⟩ = (.ok (.Unmodified, .shared), []) :=
  (C4_shutdown_behavior ⟨.wouldBlock, .ok .Modified, true⟩).1 rfl

/-- Outcome of running a Rust closure under `catch_unwind`: a value, an
error value, or a panic (identified by a numeric payload). -/
inductive Exec (T E : Type) where
  | ok (t : T)
  | err (e : E)
  | panicked (payload : Nat)
deriving DecidableEq, Repr

/-- The `with_finally` combinator (`coordinate/finally.rs` lines 10-52),
over computations represented as the trace of events they emit plus their
outcome. `catch_unwind(task)` runs first, `catch_unwind(finally)` runs in
every case afterwards; a task panic is re-raised after `finally`, a task
error is returned in preference to any `finally` error or panic
(suppressed, logged), and when the task succeeded a `finally` error or
panic is propagated. The `FE: Into<E>` conversion is modelled as the
identity. -/
def withFinallyT {T FT E : Type} (finallyC : List LEv × Exec FT E)
    (taskC : List LEv × Exec T E) : List LEv × Exec T E :=
  match taskC with
  | (tEvs, .ok t) =>
    match finallyC with
    | (fEvs, .ok _) => (tEvs ++ fEvs, .ok t)
    | (fEvs, .err ce) => (tEvs ++ fEvs, .err ce)
    | (fEvs, .panicked p) => (tEvs ++ fEvs, .panicked p)
  | (tEvs, .err e) => (tEvs ++ finallyC.1, .err e)
  | (tEvs, .panicked p) => (tEvs ++ finallyC.1, .panicked p)

/-- A Rust `FnOnce() -> T` action: it either produces a value or panics. -/
def taskOf {T : Type} (action : List LEv × (T ⊕ Nat)) : List LEv × Exec T CoErr :=
  (action.1, match action.2 with | .inl t => .ok t | .inr p => .panicked p)

/-- The shutdown call as a computation for `with_finally` (the closure
`|| shutdown::<S, _, _>(lock, || subject.stop())` of `run_and_stop`, or
the `destroy` analogue). -/
def shutdownComp (op : MutOp) (env : CShutEnv) : List LEv × Exec (Option State × LockSt) CoErr :=
  ((cShutdown op env).2,
    match (cShutdown op env).1 with
    | .ok v => .ok v
    | .error e => .err e)

/-- The `run_and_stop` combinator (`coordinate.rs` lines 65-86): run the
startup algorithm, then `with_finally` with the shutdown path as the
`finally` argument and `|| Ok(action())` as the task. -/
def runAndStop {T : Type} (retries : List Nat) (cenv : CEnv) (shutEnv : CShutEnv)
    (action : List LEv × (T ⊕ Nat)) : List LEv × Exec T CoErr :=
  match cStartup retries cenv with
  | (.error e, evs) => (evs, .err e)
  | (.ok _, evs) =>
    let fr := withFinallyT (shutdownComp .stop shutEnv) (taskOf action)
    (evs ++ fr.1, fr.2)

/-- The `run_and_destroy` combinator (`coordinate.rs` lines 125-146): as
`runAndStop` but the cleanup invokes `subject.destroy()`. -/
def runAndDestroy {T : Type} (retries : List Nat) (cenv : CEnv) (shutEnv : CShutEnv)
    (action : List LEv × (T ⊕ Nat)) : List LEv × Exec T CoErr :=
  match cStartup retries cenv with
  | (.error e, evs) => (evs, .err e)
  | (.ok _, evs) =>
    let fr := withFinallyT (shutdownComp .destroy shutEnv) (taskOf action)
    (evs ++ fr.1, fr.2)

/-- C9: in `with_finally` (as used by `run_and_stop`/`run_and_destroy` with
the shutdown path as cleanup) the cleanup runs after the task whether the
task succeeds, fails, or panics; a task panic is re-propagated after
cleanup; a task error wins over any cleanup error or panic; a cleanup error
or panic is propagated when the task succeeded; and once startup has
succeeded, the combinators run action and shutdown in order with the
action's panic re-propagated. -/
theorem C9_cleanup_semantics :
    (∀ (T FT E : Type) (fC : List LEv × Exec FT E) (tC : List LEv × Exec T E),
      (withFinallyT fC tC).1 = tC.1 ++ fC.1)
    ∧ (∀ (T FT E : Type) (fC : List LEv × Exec FT E) (tC : List LEv × Exec T E) p,
      tC.2 = .panicked p → (withFinallyT fC tC).2 = .panicked p)
    ∧ (∀ (T FT E : Type) (fC : List LEv × Exec FT E) (tC : List LEv × Exec T E) e,
      tC.2 = .err e → (withFinallyT fC tC).2 = .err e)
    ∧ (∀ (T FT E : Type) (fC : List LEv × Exec FT E) (tC : List LEv × Exec T E) t ft,
      tC.2 = .ok t → fC.2 = .ok ft → (withFinallyT fC tC).2 = .ok t)
    ∧ (∀ (T FT E : Type) (fC : List LEv × Exec FT E) (tC : List LEv × Exec T E) t ce,
      tC.2 = .ok t → fC.2 = .err ce → (withFinallyT fC tC).2 = .err ce)
    ∧ (∀ (T FT E : Type) (fC : List LEv × Exec FT E) (tC : List LEv × Exec T E) t p,
      tC.2 = .ok t → fC.2 = .panicked p → (withFinallyT fC tC).2 = .panicked p)
    ∧ (∀ (T : Type) retries cenv shutEnv (action : List LEv × (T ⊕ Nat)) st0 evs0,
      cStartup retries cenv = (.ok st0, evs0) →
      (runAndStop retries cenv shutEnv action).1
          = evs0 ++ (action.1 ++ (cShutdown .stop shutEnv).2)
        ∧ (∀ p, action.2 = .inr p → (runAndStop retries cenv shutEnv action).2 = .panicked p))
    ∧ (∀ (T : Type) retries cenv shutEnv (action : List LEv × (T ⊕ Nat)) st0 evs0,
      cStartup retries cenv = (.ok st0, evs0) →
      (runAndDestroy retries cenv shutEnv action).1
          = evs0 ++ (action.1 ++ (cShutdown .destroy shutEnv).2)
        ∧ (∀ p, action.2 = .inr p →
            (runAndDestroy retries cenv shutEnv action).2 = .panicked p)) := by
  refine ⟨?_, ?_, ?_, ?_, ?_, ?_, ?_, ?_⟩
  · rintro T FT E ⟨fEvs, fr⟩ ⟨tEvs, tr⟩
    cases tr <;> cases fr <;> rfl
  · rintro T FT E ⟨fEvs, fr⟩ ⟨tEvs, tr⟩ p h
    cases tr <;> simp_all [withFinallyT]
  · rintro T FT E ⟨fEvs, fr⟩ ⟨tEvs, tr⟩ e h
    cases tr <;> simp_all [withFinallyT]
  · rintro T FT E ⟨fEvs, fr⟩ ⟨tEvs, tr⟩ t ft h hf
    cases tr <;> cases fr <;> simp_all [withFinallyT]
  · rintro T FT E ⟨fEvs, fr⟩ ⟨tEvs, tr⟩ t ce h hf
    cases tr <;> cases fr <;> simp_all [withFinallyT]
  · rintro T FT E ⟨fEvs, fr⟩ ⟨tEvs, tr⟩ t p h hf
    cases tr <;> cases fr <;> simp_all [withFinallyT]
  · rintro T retries cenv shutEnv ⟨aEvs, ar⟩ st0 evs0 h
    constructor
    · cases ar <;>
        cases hcs : (cShutdown .stop shutEnv).1 <;>
          simp [runAndStop, h, withFinallyT, taskOf, shutdownComp, hcs]
    · intro p hp
      simp at hp
      subst hp
      simp [runAndStop, h, withFinallyT, taskOf]
  · rintro T retries cenv shutEnv ⟨aEvs, ar⟩ st0 evs0 h
    constructor
    · cases ar <;>
        cases hcs : (cShutdown .destroy shutEnv).1 <;>
          simp [runAndDestroy, h, withFinallyT, taskOf, shutdownComp, hcs]
    · intro p hp
      simp at hp
      subst hp
      simp [runAndDestroy, h, withFinallyT, taskOf]

/-- C9 witness: a task panic is re-propagated after cleanup, at concrete
computations. -/
theorem C9_cleanup_semantics_witness :
    (withFinallyT (([], .ok 0) : List LEv × Exec Nat CoErr)
        (([], .panicked 5) : List LEv × Exec Nat CoErr)).2 = .panicked 5 :=
  C9_cleanup_semantics.2.1 Nat Nat CoErr ([], .ok 0) ([], .panicked 5) 5 rfl

/-- Result of `std::fs::read` on a path: the file's bytes, a `NotFound`
error, or another I/O error. -/
inductive ReadResult where
  | ok (bytes : List Nat)
  | notFound
  | ioError
deriving DecidableEq, Repr

/-- Reading the target file of the WAL archive operation: `tgtContent` is
its content (`none` = absent) and `tgtReadErr` injects a non-`NotFound`
I/O error. -/
def readTarget (tgtContent : Option (List Nat)) (tgtReadErr : Bool) : ReadResult :=
  if tgtReadErr then .ioError
  else
    match tgtContent with
    | none => .notFound
    | some b => .ok b

/-- The `wal:archive` sub-operation (`pgdo-cli/src/command/backup.rs` lines
74-107): match on `(read(&source), read(&target))` with the source's arm
order. Returns the exit status (`true` = `ExitCode::SUCCESS`) and the
target's content afterwards. `writeOk` is the outcome of `fs::write`; a
failed write is modelled as leaving the target unchanged (no claim proved
here depends on the content left behind by a failed write). -/
def walArchive (src : ReadResult) (tgtContent : Option (List Nat))
    (tgtReadErr : Bool) (writeOk : Bool) : Bool × Option (List Nat) :=
  match src, readTarget tgtContent tgtReadErr with
  | .ok walIn, .notFound =>
    if writeOk then (true, some walIn) else (false, tgtContent)
  | .ok walIn, .ok walOut =>
    if walIn = walOut then (true, tgtContent) else (false, tgtContent)
  | .ok _, .ioError => (false, tgtContent)
  | .notFound, _ => (false, tgtContent)
  | .ioError, _ => (false, tgtContent)

/-- C5: the WAL-copy sub-operation writes the source bytes and succeeds
when the target is absent; succeeds without modification when the target
equals the source; fails without overwriting when the target differs; and
fails on any I/O error (unreadable source – including a missing one – a
target read error, or a failed write). Consequently a second run with
unchanged content also succeeds. -/
theorem C5_wal_archive :
    (∀ b, walArchive (.ok b) none false true = (true, some b))
    ∧ (∀ b w, walArchive (.ok b) (some b) false w = (true, some b))
    ∧ (∀ b c w, b ≠ c → walArchive (.ok b) (some c) false w = (false, some c))
    ∧ (∀ t e w, (walArchive .ioError t e w).1 = false)
    ∧ (∀ t e w, (walArchive .notFound t e w).1 = false)
    ∧ (∀ s t w, (walArchive s t true w).1 = false)
    ∧ (∀ b, (walArchive (.ok b) none false false).1 = false)
    ∧ (∀ b w, walArchive (.ok b) (walArchive (.ok b) none false true).2 false w
        = (true, some b)) := by
  refine ⟨?_, ?_, ?_, ?_, ?_, ?_, ?_, ?_⟩
  · intro b; rfl
  · intro b w; simp [walArchive, readTarget]
  · intro b c w h; simp [walArchive, readTarget, h]
  · intro t e w; cases e <;> rcases t with _ | tb <;> simp [walArchive, readTarget]
  · intro t e w; cases e <;> rcases t with _ | tb <;> simp [walArchive, readTarget]
  · intro s t w; cases s <;> simp [walArchive, readTarget]
  · intro b; rfl
  · intro b w; simp [walArchive, readTarget]

/-- C5 witness: the differing-content conjunct at concrete byte lists: the
operation fails and the target keeps its old content. -/
theorem C5_wal_archive_witness :
    walArchive (.ok [1]) (some [2]) false true = (false, some [2]) :=
  C5_wal_archive.2.2.1 [1] [2] true (by decide)

/-- Model of Rust `str::parse::<u32>` on an arbitrary string slice: an
optional leading `+`, then one or more ASCII digits whose value fits in 32
bits. -/
def parseU32Str (l : List Char) : Option Nat :=
  let core := if l.head? = some '+' then l.drop 1 else l
  if core ≠ [] ∧ core.all Char.isDigit then
    if digitsVal core < 2 ^ 32 then some (digitsVal core) else none
  else none

/-- One `read_dir` entry's contribution to the backup index scan
(`cluster/backup.rs` lines 172-176 and `pgdo-cli` `backup.rs` lines
306-310): names starting with `data.` whose suffix parses as `u32`. -/
def parseDataIdx (name : List Char) : Option Nat :=
  if name.take 5 = "data.".data then parseU32Str (name.drop 5) else none

/-- Maximum existing backup index in the destination directory:
`.max().unwrap_or_default()` over the parsed entries. -/
def maxDataIdx (entries : List (List Char)) : Nat :=
  (entries.filterMap parseDataIdx).foldr max 0

/-- Format `{:010}`: the decimal digits of `n`, left-padded with `0` to
width 10. -/
def pad10 (n : Nat) : List Char :=
  List.replicate (10 - (natToDigits n).length) '0' ++ natToDigits n

/-- The name chosen for a successful base backup
(`cluster/backup.rs` lines 168-180): `data.` followed by the zero-padded
successor of the maximum existing index. -/
def backupDataName (entries : List (List Char)) : List Char :=
  "data.".data ++ pad10 (maxDataIdx entries + 1)

/-- Events of the final block of `Backup::do_base_backup`
(`cluster/backup.rs` lines 157-186). -/
inductive BEv where
  | lockExcl
  | computeName (name : List Char)
  | renameTmp (name : List Char)
  | unlockEv
deriving DecidableEq, Repr

/-- The final block of `Backup::do_base_backup` (`cluster/backup.rs` lines
157-186): take the exclusive coordinating lock on `destination/.lock`,
compute the target name from the directory entries, rename the temporary
directory to it, drop the lock, and return the chosen path. -/
def doBaseBackupFinal (entries : List (List Char)) : List BEv × List Char :=
  ([.lockExcl, .computeName (backupDataName entries),
      .renameTmp (backupDataName entries), .unlockEv],
    backupDataName entries)

theorem digitsVal_replicate_zero (k : Nat) (d : List Char) :
    digitsVal (List.replicate k '0' ++ d) = digitsVal d := by
  induction k with
  | zero => simp
  | succ m ih =>
    show digitsVal ('0' :: (List.replicate m '0' ++ d)) = digitsVal d
    unfold digitsVal at ih ⊢
    simpa using ih

theorem pad10_all_digits (n : Nat) : ∀ c ∈ pad10 n, c.isDigit = true := by
  intro c hc
  unfold pad10 at hc
  rcases List.mem_append.mp hc with h | h
  · rw [List.eq_of_mem_replicate h]; decide
  · exact natToDigits_digits n c h

theorem pad10_ne_nil (n : Nat) : pad10 n ≠ [] := by
  unfold pad10
  intro h
  rcases List.append_eq_nil.mp h with ⟨_, h2⟩
  exact natToDigits_ne_nil n h2

theorem parseU32Str_pad10 (n : Nat) (h : n < 2 ^ 32) :
    parseU32Str (pad10 n) = some n := by
  unfold parseU32Str
  have hhead : (pad10 n).head? ≠ some '+' := by
    cases hp : pad10 n with
    | nil => exact absurd hp (pad10_ne_nil n)
    | cons c cs =>
      have : c.isDigit = true := pad10_all_digits n c (by rw [hp]; simp)
      simp only [List.head?]
      intro hcon
      simp at hcon
      rw [hcon] at this
      exact absurd this (by decide)
  rw [if_neg hhead]
  have hval : digitsVal (pad10 n) = n := by
    unfold pad10
    rw [digitsVal_replicate_zero, digitsVal_natToDigits]
  rw [if_pos ⟨pad10_ne_nil n, by simpa [List.all_eq_true] using pad10_all_digits n⟩]
  rw [hval, if_pos h]

theorem parseDataIdx_backupDataName (entries : List (List Char))
    (h : maxDataIdx entries + 1 < 2 ^ 32) :
    parseDataIdx (backupDataName entries) = some (maxDataIdx entries + 1) := by
  unfold parseDataIdx backupDataName
  have h5 : ("data.".data).length = 5 := by decide
  rw [show (5 : Nat) = ("data.".data).length from h5.symm, List.take_left, List.drop_left]
  rw [if_pos rfl]
  exact parseU32Str_pad10 _ h

theorem mem_le_foldr_max (l : List Nat) (i : Nat) (h : i ∈ l) : i ≤ l.foldr max 0 := by
  induction l with
  | nil => simp at h
  | cons x xs ih =>
    rcases List.mem_cons.mp h with h1 | h1
    · subst h1; simp [List.foldr]
    · have := ih h1
      simp [List.foldr]
      omega

/-- C6: the final directory name of a successful base backup is `data.`
followed by the zero-padded 10-digit successor of the maximum existing
`data.*` index (one when there is none); it is strictly greater than every
existing index (so successive backups get distinct, strictly increasing
indices, and after a backup the next index is exactly one larger); and the
name is computed and the rename performed between taking and dropping the
exclusive coordinating lock. -/
theorem C6_backup_naming :
    (∀ entries, doBaseBackupFinal entries
        = ([.lockExcl, .computeName (backupDataName entries),
            .renameTmp (backupDataName entries), .unlockEv],
          backupDataName entries))
    ∧ (∀ entries, backupDataName entries = "data.".data ++ pad10 (maxDataIdx entries + 1))
    ∧ (∀ entries, (∀ e ∈ entries, parseDataIdx e = none) →
        backupDataName entries = "data.0000000001".data)
    ∧ (∀ entries e i, e ∈ entries → parseDataIdx e = some i → i < maxDataIdx entries + 1)
    ∧ (∀ entries, maxDataIdx entries + 1 < 2 ^ 32 →
        maxDataIdx (backupDataName entries :: entries) + 1 = maxDataIdx entries + 1 + 1) := by
  refine ⟨fun _ => rfl, fun _ => rfl, ?_, ?_, ?_⟩
  · intro entries h
    have hnil : entries.filterMap parseDataIdx = [] := List.filterMap_eq_nil_iff.mpr h
    unfold backupDataName maxDataIdx
    rw [hnil]
    decide
  · intro entries e i he hi
    have : i ∈ entries.filterMap parseDataIdx :=
      List.mem_filterMap.mpr ⟨e, he, hi⟩
    have := mem_le_foldr_max _ i this
    unfold maxDataIdx
    omega
  · intro entries h
    have hp := parseDataIdx_backupDataName entries h
    simp only [maxDataIdx] at hp h ⊢
    simp only [List.filterMap_cons, hp, List.foldr_cons]
    omega

/-- C6 witness: the fresh-destination conjunct at a destination containing
only `wal` and `.lock`. -/
theorem C6_backup_naming_witness :
    backupDataName ["wal".data, ".lock".data] = "data.0000000001".data :=
  C6_backup_naming.2.2.1 ["wal".data, ".lock".data] (by decide)
